import Mathlib

/-!
Verification of the WyngAI retrieval / authority-ranking subsystem.

Shallow embedding of:
* `src/wyngai/chunk/hierarchical.py` (`HierarchicalChunker`),
* `src/wyngai/rag/hybrid_index_lite.py` (`HybridIndexLite`),
* `src/wyngai/data_sources/data_expansion_pipeline.py`
  (`DataExpansionPipeline._calculate_authority_rank`),
* `rag/enhanced_service.py` (`EnhancedRAGService`),
* the `CHUNK` pydantic model of `src/wyngai/schemas.py`.

Conventions: Python `str` text that is processed character-wise is modelled as
`List Char`; Python floats are modelled as `ℚ` (all operations involved are
exact arithmetic expressions, comparisons and sorting, so the algebraic and
ordering structure is preserved); the `re` module's match results are
abstracted as function parameters (the loop/accumulation structure around them
is translated from the source).
-/

namespace Wyngai

/-! ## Text utilities (Python `str` operations on `List Char`) -/

/-- Python `str.strip()` whitespace class (ASCII part). -/
def isSpaceChar (c : Char) : Bool :=
  c = ' ' ∨ c = '\t' ∨ c = '\n' ∨ c = '\r' ∨ c = '\x0b' ∨ c = '\x0c'

/-- Python `str.strip()`: drop whitespace from both ends. -/
def strip (l : List Char) : List Char :=
  ((l.dropWhile isSpaceChar).reverse.dropWhile isSpaceChar).reverse

/-- Python `text.split(sep)` for a one-character separator. -/
def splitOnChar (sep : Char) : List Char → List (List Char)
  | [] => [[]]
  | a :: rest =>
    let r := splitOnChar sep rest
    if a = sep then [] :: r else (a :: r.headD []) :: r.tail

/-- Python `text.split('\n\n')`: split at non-overlapping double newlines,
left to right. -/
def splitParas : List Char → List (List Char)
  | [] => [[]]
  | a :: rest =>
    if a = '\n' ∧ rest.head? = some '\n' then
      [] :: splitParas rest.tail
    else
      let r := splitParas rest
      (a :: r.headD []) :: r.tail
termination_by l => l.length
decreasing_by
  · have h1 : rest.tail.length = rest.length - 1 := List.length_tail rest
    simp only [List.length_cons]
    omega
  · simp only [List.length_cons]
    omega

/-- Python `needle in haystack` (substring test). -/
def strContains (needle haystack : List Char) : Bool :=
  decide (needle <:+: haystack)

/-- Python `s.lower()` (ASCII lowering suffices for the texts involved). -/
def lowerChars (l : List Char) : List Char :=
  l.map Char.toLower

/-! ## Document / chunk data model (`src/wyngai/schemas.py`) -/

/-- `DOC` (the fields read by the chunker and the authority policies). -/
structure DOC where
  doc_id : Nat
  doc_type : String
  jurisdiction : String
  category : String
  retrieval_priority : ℚ
  tags : List String
  text : List Char
  metadata_state_code : Option String := none
  effective_date : Option Int := none
  published_date : Option Int := none

/-- `CHUNK` (the fields produced by `HierarchicalChunker`). -/
structure CHUNK where
  doc_id : Nat
  ordinal : Nat
  char_start : Nat
  char_end : Nat
  text : List Char
  token_count : Nat
  headings : List (List Char)
  section_path : List (List Char)
  citations : List (List Char)
  authority_rank : ℚ
  topics : List String
deriving DecidableEq

/-- Pydantic validation of `CHUNK.authority_rank` (`Field(ge=0.0, le=1.0)`):
constructing a `CHUNK` with an out-of-range rank raises a `ValidationError`,
modelled by returning `none`. -/
def CHUNK.validated (c : CHUNK) : Option CHUNK :=
  if 0 ≤ c.authority_rank ∧ c.authority_rank ≤ 1 then some c else none

/-- `AuthorityRanking` defaults (`src/wyngai/schemas.py`). -/
structure AuthorityRanking where
  federal_statute : ℚ := 1
  federal_regulation : ℚ := 95/100
  cms_manual : ℚ := 90/100
  cms_coverage : ℚ := 90/100
  state_regulation : ℚ := 87/100
  state_statute : ℚ := 85/100
  payer_policy : ℚ := 78/100
  court_decision_erisa : ℚ := 75/100
  appeal_precedent : ℚ := 72/100
  iro_decision : ℚ := 70/100
  state_court_decision : ℚ := 68/100
  administrative_ruling : ℚ := 65/100
  secondary_source : ℚ := 40/100
  industry_guidance : ℚ := 30/100
  blog : ℚ := 10/100

/-! ## Hierarchical chunker (`src/wyngai/chunk/hierarchical.py`) -/

/-- `HierarchicalChunker.__init__` configuration. -/
structure ChunkerConfig where
  min_chunk_size : Nat := 800
  max_chunk_size : Nat := 2000
  overlap_size : Nat := 200
  authority_ranking : AuthorityRanking := {}

/-- One extracted section (`{"text": ..., "headings": ..., "section_path": ...}`). -/
structure DocSection where
  text : List Char
  headings : List (List Char)
  section_path : List (List Char)
deriving DecidableEq

/-- Abstraction of the `re`-module matching used by the chunker: the per-line
new-section predicates of `_extract_regulation_sections`,
`_extract_manual_sections` and `_extract_court_sections` (each
`any(re.match/search(pattern, line))` over the source's pattern lists), and
the concatenated `re.findall` results of `_extract_citations` (CFR, USC and
policy citation patterns, in source order).  Only the regex engine is
abstracted; all structure around it is translated from the source. -/
structure RegexEnv where
  regSection : List Char → Bool
  manualSection : List Char → Bool
  courtSection : List Char → Bool
  citationFindall : List Char → List (List Char)

/-- `HierarchicalChunker._extract_citations`: concatenate the findall results
and deduplicate via `list(set(citations))` (the arbitrary `set` iteration
order is modelled by `List.dedup`). -/
def extract_citations (env : RegexEnv) (text : List Char) : List (List Char) :=
  (env.citationFindall text).dedup

/-- `HierarchicalChunker._extract_topics` keyword taxonomy. -/
def topicKeywords : List (String × List String) :=
  [("prior_authorization", ["prior authorization", "preauthorization", "pre-auth"]),
   ("medical_necessity", ["medical necessity", "medically necessary", "clinical necessity"]),
   ("appeals", ["appeal", "grievance", "external review", "independent review"]),
   ("claims", ["claim", "reimbursement", "payment", "billing"]),
   ("coverage", ["coverage", "covered service", "benefit"]),
   ("dme", ["durable medical equipment", "prosthetic", "orthotic"]),
   ("diagnostic", ["diagnostic", "laboratory", "pathology", "radiology"]),
   ("emergency", ["emergency", "urgent care", "trauma"]),
   ("behavioral_health", ["mental health", "behavioral health", "substance abuse"]),
   ("pharmacy", ["prescription", "drug", "medication", "pharmaceutical"]),
   ("balance_billing", ["balance billing", "surprise billing", "out-of-network"])]

/-- `HierarchicalChunker._extract_topics`. -/
def extract_topics (text : List Char) : List String :=
  (topicKeywords.filter
    (fun kv => kv.2.any (fun kw => strContains kw.toList (lowerChars text)))).map (·.1)

/-- `HierarchicalChunker._calculate_authority_rank`. -/
def calculate_authority_rank (cfg : ChunkerConfig) (doc : DOC) : ℚ :=
  let ar := cfg.authority_ranking
  if doc.doc_type = "law" then ar.federal_statute
  else if doc.doc_type = "reg" then ar.federal_regulation
  else if doc.jurisdiction = "medicare" ∧ doc.doc_type = "manual" then ar.cms_manual
  else if strContains "payer".toList (lowerChars doc.category.toList) then ar.payer_policy
  else if doc.doc_type = "court_opinion" then ar.court_decision_erisa
  else doc.retrieval_priority

/-- The line-accumulation loop shared by `_extract_regulation_sections`,
`_extract_manual_sections` and `_extract_court_sections` (they differ only in
the new-section regex predicate). -/
def extractLineSections (isNew : List Char → Bool) (text : List Char) : List DocSection :=
  let step : List DocSection × DocSection → List Char → List DocSection × DocSection :=
    fun st rawLine =>
      let line := strip rawLine
      if line = [] then st
      else if isNew line ∧ st.2.text ≠ [] then
        (st.1 ++ [st.2], ⟨line, [line], [line]⟩)
      else
        (st.1, { st.2 with text := st.2.text ++ '\n' :: line })
  let r := (splitOnChar '\n' text).foldl step ([], ⟨[], [], []⟩)
  if r.2.text ≠ [] then r.1 ++ [r.2] else r.1

/-- `HierarchicalChunker._extract_generic_sections`. -/
def extract_generic_sections (text : List Char) : List DocSection :=
  (splitParas text).enum.filterMap fun p =>
    if strip p.2 = [] then none
    else some ⟨strip p.2, [], [("Paragraph " ++ toString (p.1 + 1)).toList]⟩

/-- `HierarchicalChunker._extract_sections` (dispatch on `doc_type`). -/
def extract_sections (env : RegexEnv) (text : List Char) (doc_type : String) :
    List DocSection :=
  if doc_type = "reg" then extractLineSections env.regSection text
  else if doc_type = "manual" then extractLineSections env.manualSection text
  else if doc_type = "court_opinion" then extractLineSections env.courtSection text
  else extract_generic_sections text

/-- Sentence-ending punctuation tested by `_split_text_with_overlap`
(`text[i] in '.!?'`). -/
def sentencePunct (c : Char) : Bool :=
  c = '.' ∨ c = '!' ∨ c = '?'

/-- The sentence-boundary pull-back of `_split_text_with_overlap`:
`for i in range(end - 100, end): if i > start and text[i] in '.!?':
end = i + 1; break`.  Candidates below `start + 1` (including the negative
range values possible when `e < 100`) never satisfy `i > start`, so the
effective candidate set is `[max (e - 100) (start + 1), e)`, scanned in
increasing order. -/
def sentencePull (text : List Char) (start e : Nat) : Nat :=
  match (List.range' (max (e - 100) (start + 1)) (e - max (e - 100) (start + 1))).find?
      (fun i => sentencePunct (text.getD i ' ')) with
  | some i => i + 1
  | none => e

/-- The `while start < len(text)` loop of
`HierarchicalChunker._split_text_with_overlap`, with explicit fuel: the source
loop's only exit is `start ≥ len(text)`, so a run that exhausts any fuel bound
without exiting is modelled as `none`. -/
def splitLoop (cfg : ChunkerConfig) (text : List Char) :
    Nat → Nat → List (List Char) → Option (List (List Char))
  | _, 0, _ => none
  | start, fuel + 1, acc =>
    if start < text.length then
      let e0 := min (start + cfg.max_chunk_size) text.length
      let e := if e0 < text.length then sentencePull text start e0 else e0
      let chunkText := strip ((text.drop start).take (e - start))
      let acc' :=
        if cfg.min_chunk_size ≤ chunkText.length ∨ start = 0 then acc ++ [chunkText]
        else acc
      splitLoop cfg text (e - cfg.overlap_size) fuel acc'
    else some acc

/-- `HierarchicalChunker._split_text_with_overlap`. -/
def split_text_with_overlap (cfg : ChunkerConfig) (text : List Char) (fuel : Nat) :
    Option (List (List Char)) :=
  splitLoop cfg text 0 fuel []

/-- `HierarchicalChunker._chunk_section`. -/
def chunk_section (env : RegexEnv) (cfg : ChunkerConfig) (doc : DOC)
    (sec : DocSection) (start_ordinal : Nat) (fuel : Nat) : Option (List CHUNK) :=
  let text := sec.text
  if text.length ≤ cfg.max_chunk_size then
    some [{ doc_id := doc.doc_id
            ordinal := start_ordinal
            char_start := 0
            char_end := text.length
            text := text
            token_count := text.length / 4
            headings := sec.headings
            section_path := sec.section_path
            citations := extract_citations env text
            authority_rank := calculate_authority_rank cfg doc
            topics := [] }]
  else
    (split_text_with_overlap cfg text fuel).map fun chunkTexts =>
      chunkTexts.enum.map fun p =>
        { doc_id := doc.doc_id
          ordinal := start_ordinal + p.1
          char_start := p.1 * (cfg.max_chunk_size - cfg.overlap_size)
          char_end :=
            min ((p.1 + 1) * (cfg.max_chunk_size - cfg.overlap_size) + cfg.overlap_size)
              text.length
          text := p.2
          token_count := p.2.length / 4
          headings := sec.headings
          section_path := sec.section_path
          citations := extract_citations env p.2
          authority_rank := calculate_authority_rank cfg doc
          topics := [] }

/-- `HierarchicalChunker._enrich_chunk` (`list(set(topics + doc.tags))`
modelled by `List.dedup`). -/
def enrich_chunk (doc : DOC) (c : CHUNK) : CHUNK :=
  { c with topics := (extract_topics c.text ++ doc.tags).dedup }

/-- The per-section loop of `chunk_document`: accumulate section chunks,
advancing the running ordinal by the number of chunks just produced. -/
def chunkSectionsLoop (env : RegexEnv) (cfg : ChunkerConfig) (doc : DOC) (fuel : Nat) :
    List DocSection → Nat → Option (List CHUNK)
  | [], _ => some []
  | sec :: rest, ord =>
    match chunk_section env cfg doc sec ord fuel with
    | none => none
    | some cs =>
      match chunkSectionsLoop env cfg doc fuel rest (ord + cs.length) with
      | none => none
      | some more => some (cs ++ more)

/-- `HierarchicalChunker.chunk_document`. -/
def chunk_document (env : RegexEnv) (cfg : ChunkerConfig) (doc : DOC) (fuel : Nat) :
    Option (List CHUNK) :=
  (chunkSectionsLoop env cfg doc fuel (extract_sections env doc.text doc.doc_type) 0).map
    (·.map (enrich_chunk doc))

/-! ## Helper lemmas about the text utilities -/

lemma dropWhile_eq_self_of_head (p : Char → Bool) (l : List Char)
    (h : ∀ c ∈ l, p c = false) : l.dropWhile p = l := by
  cases l with
  | nil => rfl
  | cons a t =>
    rw [List.dropWhile_cons]
    simp [h a (by simp)]

lemma strip_eq_self (l : List Char) (h : ∀ c ∈ l, isSpaceChar c = false) :
    strip l = l := by
  unfold strip
  rw [dropWhile_eq_self_of_head _ _ h,
    dropWhile_eq_self_of_head _ _ (fun c hc => h c (List.mem_reverse.mp hc)),
    List.reverse_reverse]

lemma strip_eq_nil (l : List Char) (h : ∀ c ∈ l, isSpaceChar c = true) :
    strip l = [] := by
  unfold strip
  have h1 : l.dropWhile isSpaceChar = [] := List.dropWhile_eq_nil_iff.mpr h
  rw [h1]
  rfl

lemma headD_tail_cases {α : Type} (r : List (List α)) (a : α) :
    (a :: r.headD []) :: r.tail = [[a]] ∨
      ∃ h t, r = h :: t ∧ (a :: r.headD []) :: r.tail = (a :: h) :: t := by
  cases r with
  | nil => left; rfl
  | cons h t => right; exact ⟨h, t, rfl, rfl⟩

lemma splitOnChar_chars (sep : Char) :
    ∀ (l : List Char), ∀ piece ∈ splitOnChar sep l, ∀ c ∈ piece, c ∈ l := by
  intro l
  induction l with
  | nil =>
    intro piece hp c hc
    simp only [splitOnChar, List.mem_singleton] at hp
    subst hp
    exact absurd hc (by simp)
  | cons a rest ih =>
    intro piece hp c hc
    simp only [splitOnChar] at hp
    by_cases ha : a = sep
    · rw [if_pos ha] at hp
      rcases List.mem_cons.mp hp with rfl | hp
      · exact absurd hc (by simp)
      · exact List.mem_cons_of_mem a (ih piece hp c hc)
    · rw [if_neg ha] at hp
      rcases headD_tail_cases (splitOnChar sep rest) a with heq | ⟨h, t, hr, heq⟩
      · rw [heq, List.mem_singleton] at hp
        subst hp
        rcases List.mem_cons.mp hc with rfl | hc'
        · exact List.mem_cons_self _ _
        · exact absurd hc' (by simp)
      · rw [heq] at hp
        rcases List.mem_cons.mp hp with rfl | hp
        · rcases List.mem_cons.mp hc with rfl | hc'
          · exact List.mem_cons_self _ _
          · exact List.mem_cons_of_mem a
              (ih h (by rw [hr]; exact List.mem_cons_self _ _) c hc')
        · exact List.mem_cons_of_mem a
            (ih piece (by rw [hr]; exact List.mem_cons_of_mem h hp) c hc)

lemma splitParas_chars_aux :
    ∀ (n : Nat) (l : List Char), l.length ≤ n →
      ∀ piece ∈ splitParas l, ∀ c ∈ piece, c ∈ l := by
  intro n
  induction n with
  | zero =>
    intro l hl piece hp c hc
    have : l = [] := List.eq_nil_of_length_eq_zero (Nat.le_zero.mp hl)
    subst this
    simp only [splitParas, List.mem_singleton] at hp
    subst hp
    exact absurd hc (by simp)
  | succ n ih =>
    intro l hl piece hp c hc
    cases l with
    | nil =>
      simp only [splitParas, List.mem_singleton] at hp
      subst hp
      exact absurd hc (by simp)
    | cons a rest =>
      simp only [splitParas] at hp
      by_cases hcond : a = '\n' ∧ rest.head? = some '\n'
      · rw [if_pos hcond] at hp
        rcases List.mem_cons.mp hp with rfl | hp
        · exact absurd hc (by simp)
        · have htl : rest.tail.length ≤ n := by
            have h1 : rest.tail.length = rest.length - 1 := List.length_tail rest
            simp only [List.length_cons] at hl
            omega
          exact List.mem_cons_of_mem a
            (List.mem_of_mem_tail (ih rest.tail htl piece hp c hc))
      · rw [if_neg hcond] at hp
        have hrest : rest.length ≤ n := by
          simp only [List.length_cons] at hl
          omega
        rcases headD_tail_cases (splitParas rest) a with heq | ⟨h, t, hr, heq⟩
        · rw [heq, List.mem_singleton] at hp
          subst hp
          rcases List.mem_cons.mp hc with rfl | hc'
          · exact List.mem_cons_self _ _
          · exact absurd hc' (by simp)
        · rw [heq] at hp
          rcases List.mem_cons.mp hp with rfl | hp
          · rcases List.mem_cons.mp hc with rfl | hc'
            · exact List.mem_cons_self _ _
            · exact List.mem_cons_of_mem a
                (ih rest hrest h (by rw [hr]; exact List.mem_cons_self _ _) c hc')
          · exact List.mem_cons_of_mem a
              (ih rest hrest piece (by rw [hr]; exact List.mem_cons_of_mem h hp) c hc)

lemma splitParas_chars (l : List Char) :
    ∀ piece ∈ splitParas l, ∀ c ∈ piece, c ∈ l :=
  splitParas_chars_aux l.length l le_rfl

lemma splitParas_no_newline (l : List Char) (h : ∀ c ∈ l, c ≠ '\n') :
    splitParas l = [l] := by
  induction l with
  | nil => simp [splitParas]
  | cons a rest ih =>
    have ha : a ≠ '\n' := h a (by simp)
    simp only [splitParas]
    rw [if_neg (by simp [ha])]
    rw [ih (fun c hc => h c (List.mem_cons_of_mem a hc))]
    rfl

/-! ## Empty / whitespace-only documents (claim C8 infrastructure) -/

lemma extractLineSections_all_space (isNew : List Char → Bool) (text : List Char)
    (h : ∀ c ∈ text, isSpaceChar c = true) :
    extractLineSections isNew text = [] := by
  unfold extractLineSections
  have hlines : ∀ line ∈ splitOnChar '\n' text, strip line = [] := fun line hl =>
    strip_eq_nil line (fun c hc => h c (splitOnChar_chars '\n' text line hl c hc))
  have hfold : ∀ (lines : List (List Char)),
      (∀ line ∈ lines, strip line = []) →
      ∀ (st : List DocSection × DocSection),
        lines.foldl
          (fun st rawLine =>
            let line := strip rawLine
            if line = [] then st
            else if isNew line ∧ st.2.text ≠ [] then
              (st.1 ++ [st.2], ⟨line, [line], [line]⟩)
            else (st.1, { st.2 with text := st.2.text ++ '\n' :: line })) st = st := by
    intro lines
    induction lines with
    | nil => intro _ st; rfl
    | cons l rest ih =>
      intro hws st
      rw [List.foldl_cons]
      have hl : strip l = [] := hws l (by simp)
      simp only [hl, if_pos rfl]
      exact ih (fun x hx => hws x (List.mem_cons_of_mem l hx)) st
  simp only [hfold (splitOnChar '\n' text) hlines ([], ⟨[], [], []⟩)]
  rfl

lemma mem_enum_snd {α : Type} : ∀ (l : List α) (n : Nat) (p : Nat × α),
    p ∈ l.enumFrom n → p.2 ∈ l := by
  intro l
  induction l with
  | nil => intro n p hp; simp [List.enumFrom] at hp
  | cons a rest ih =>
    intro n p hp
    simp only [List.enumFrom] at hp
    rcases List.mem_cons.mp hp with rfl | hp
    · exact List.mem_cons_self _ _
    · exact List.mem_cons_of_mem a (ih (n + 1) p hp)

lemma extract_generic_sections_all_space (text : List Char)
    (h : ∀ c ∈ text, isSpaceChar c = true) :
    extract_generic_sections text = [] := by
  unfold extract_generic_sections
  rw [List.filterMap_eq_nil_iff]
  intro p hp
  have hmem : p.2 ∈ splitParas text := mem_enum_snd (splitParas text) 0 p hp
  have hstrip : strip p.2 = [] :=
    strip_eq_nil p.2 (fun c hc => h c (splitParas_chars text p.2 hmem c hc))
  simp [hstrip]

lemma extract_sections_all_space (env : RegexEnv) (text : List Char) (dt : String)
    (h : ∀ c ∈ text, isSpaceChar c = true) :
    extract_sections env text dt = [] := by
  unfold extract_sections
  by_cases h1 : dt = "reg"
  · simp [h1, extractLineSections_all_space _ _ h]
  by_cases h2 : dt = "manual"
  · simp [h1, h2, extractLineSections_all_space _ _ h]
  by_cases h3 : dt = "court_opinion"
  · simp [h1, h2, h3, extractLineSections_all_space _ _ h]
  · simp [h1, h2, h3, extract_generic_sections_all_space _ h]

/-- **C8.** A document whose text is empty or whitespace-only yields zero
chunks, for every document kind, every chunker configuration and every fuel
bound (in particular no exception and no divergence: the result is
`some []`, not `none`). -/
theorem chunk_document_whitespace_empty (env : RegexEnv) (cfg : ChunkerConfig)
    (doc : DOC) (fuel : Nat) (h : ∀ c ∈ doc.text, isSpaceChar c = true) :
    chunk_document env cfg doc fuel = some [] := by
  unfold chunk_document
  rw [extract_sections_all_space env doc.text doc.doc_type h]
  rfl

/-- Witness for C8: the concrete whitespace-only document
`"  \n\t \n\n  "` of generic kind produces zero chunks. -/
theorem chunk_document_whitespace_empty_witness :
    chunk_document ⟨fun _ => false, fun _ => false, fun _ => false, fun _ => []⟩ {}
      { doc_id := 1, doc_type := "dataset", jurisdiction := "", category := "",
        retrieval_priority := 1/2, tags := [], text := "  \n\t \n\n  ".toList } 5
      = some [] :=
  chunk_document_whitespace_empty _ _ _ _ (by decide)

/-! ## Non-termination of `_split_text_with_overlap` (claim C2)

Once the window reaches the end of the text (`end = len(text)`), the source
loop sets `start = end - overlap_size = len(text) - overlap_size` on every
iteration: the state repeats forever and the `while start < len(text)` loop
never exits.  The lemma below proves the fixed point; the theorem then shows
it is reached on a concrete 2200-character section. -/

lemma splitLoop_stuck (cfg : ChunkerConfig) (text : List Char)
    (hlt : text.length - cfg.overlap_size < text.length)
    (hle : text.length ≤ text.length - cfg.overlap_size + cfg.max_chunk_size) :
    ∀ (fuel : Nat) (acc : List (List Char)),
      splitLoop cfg text (text.length - cfg.overlap_size) fuel acc = none := by
  intro fuel
  induction fuel with
  | zero => intro acc; rfl
  | succ n ih =>
    intro acc
    rw [splitLoop]
    rw [if_pos hlt]
    have he0 : min (text.length - cfg.overlap_size + cfg.max_chunk_size) text.length
        = text.length := min_eq_right hle
    simp only [he0, lt_irrefl, if_neg (lt_irrefl text.length)]
    exact ih _

/-- The 2200-character all-`'a'` section text used for the C2 failing input. -/
def longSectionText : List Char := List.replicate 2200 'a'

/-- The C2 failing input: a generic-kind document whose single paragraph is
longer than the default `max_chunk_size = 2000`. -/
def longDoc : DOC :=
  { doc_id := 2, doc_type := "dataset", jurisdiction := "", category := "",
    retrieval_priority := 1/2, tags := [], text := longSectionText }

lemma strip_replicate_a (n : Nat) : strip (List.replicate n 'a') = List.replicate n 'a' :=
  strip_eq_self _ (fun c hc => by
    rw [List.eq_of_mem_replicate hc]
    rfl)

lemma longSectionText_length : longSectionText.length = 2200 := by
  unfold longSectionText
  rw [List.length_replicate]

lemma sentencePull_le (text : List Char) (start e0 : Nat) :
    sentencePull text start e0 ≤ e0 := by
  unfold sentencePull
  cases hf : (List.range' (max (e0 - 100) (start + 1))
      (e0 - max (e0 - 100) (start + 1))).find? (fun i => sentencePunct (text.getD i ' ')) with
  | none => simp only [hf]; exact le_refl e0
  | some i =>
    have hmem := List.mem_of_find?_eq_some hf
    have hr := List.mem_range'_1.mp hmem
    simp only [hf]
    omega

lemma sentencePull_ge (text : List Char) (start e0 : Nat) :
    e0 - 99 ≤ sentencePull text start e0 := by
  unfold sentencePull
  cases hf : (List.range' (max (e0 - 100) (start + 1))
      (e0 - max (e0 - 100) (start + 1))).find? (fun i => sentencePunct (text.getD i ' ')) with
  | none => simp only [hf]; omega
  | some i =>
    have hmem := List.mem_of_find?_eq_some hf
    have hr := List.mem_range'_1.mp hmem
    simp only [hf]
    omega

/-- General non-termination of the source loop: whenever the text is longer
than `max_chunk_size` (and the configuration satisfies the default-config
inequalities `0 < overlap_size` and `overlap_size + 100 ≤ max_chunk_size`),
the loop never exits, from any start position inside the text. -/
lemma splitLoop_never_terminates (cfg : ChunkerConfig) (text : List Char)
    (hov : 0 < cfg.overlap_size) (hcfg : cfg.overlap_size + 100 ≤ cfg.max_chunk_size)
    (hlong : cfg.max_chunk_size < text.length) :
    ∀ (start : Nat), start < text.length →
      ∀ (fuel : Nat) (acc : List (List Char)), splitLoop cfg text start fuel acc = none := by
  have main : ∀ (k start : Nat), text.length - start ≤ k → start < text.length →
      ∀ (fuel : Nat) (acc : List (List Char)), splitLoop cfg text start fuel acc = none := by
    intro k
    induction k with
    | zero => intro start hk hs; omega
    | succ k ih =>
      intro start hk hs fuel acc
      match fuel with
      | 0 => rfl
      | f + 1 =>
        rw [splitLoop, if_pos hs]
        by_cases hcase : text.length ≤ start + cfg.max_chunk_size
        · have he0 : min (start + cfg.max_chunk_size) text.length = text.length :=
            min_eq_right hcase
          simp only [he0]
          rw [if_neg (lt_irrefl text.length)]
          exact splitLoop_stuck cfg text (by omega) (by omega) f _
        · push_neg at hcase
          have he0 : min (start + cfg.max_chunk_size) text.length
              = start + cfg.max_chunk_size := min_eq_left (le_of_lt hcase)
          simp only [he0]
          rw [if_pos hcase]
          have hp_le := sentencePull_le text start (start + cfg.max_chunk_size)
          have hp_ge := sentencePull_ge text start (start + cfg.max_chunk_size)
          exact ih (sentencePull text start (start + cfg.max_chunk_size) - cfg.overlap_size)
            (by omega) (by omega) f _
  intro start hs fuel acc
  exact main (text.length - start) start le_rfl hs fuel acc

/-- **C2 (failing).** On a generic document whose single paragraph section is
2200 characters long (`max_chunk_size = 2000`), `chunk_document` never
terminates: for every fuel bound the embedded loop fails to exit.  The claim
states that `chunk_document` terminates with a finite chunk list for every
document; the source loop `while start < len(text)` reaches the fixed point
`start = len(text) - overlap_size` and runs forever. -/
theorem chunk_document_long_section_diverges (env : RegexEnv) (fuel : Nat) :
    chunk_document env {} longDoc fuel = none := by
  have hne : longSectionText ≠ [] := by
    intro h
    have := congrArg List.length h
    rw [longSectionText_length] at this
    simp at this
  have hstripLong : strip longSectionText = longSectionText := strip_replicate_a 2200
  have hsections :
      extract_sections env longDoc.text longDoc.doc_type
        = [⟨longSectionText, [], [("Paragraph 1").toList]⟩] := by
    show extract_sections env longSectionText "dataset" = _
    unfold extract_sections
    rw [if_neg (by decide), if_neg (by decide), if_neg (by decide)]
    unfold extract_generic_sections
    rw [splitParas_no_newline _ (fun c hc => by rw [List.eq_of_mem_replicate hc]; decide)]
    show List.filterMap _ [(0, longSectionText)] = _
    rw [List.filterMap_cons]
    simp only [hstripLong]
    rw [if_neg hne]
    rfl
  have hsec : chunk_section env {} longDoc ⟨longSectionText, [], [("Paragraph 1").toList]⟩
      0 fuel = none := by
    unfold chunk_section
    rw [if_neg (by rw [longSectionText_length]; norm_num)]
    unfold split_text_with_overlap
    rw [splitLoop_never_terminates {} longSectionText (by decide) (by decide)
      (by rw [longSectionText_length]; decide) 0
      (by rw [longSectionText_length]; decide) fuel []]
    rfl
  unfold chunk_document
  rw [hsections]
  rw [chunkSectionsLoop]
  rw [hsec]
  rfl


/-! ## Chunk offsets are section-relative, not document offsets (claim C3) -/

/-- A trivial concrete regex environment: no regex pattern matches and no
citation pattern occurs (faithful for texts containing none of the source's
section / citation patterns). -/
def envTrivial : RegexEnv :=
  ⟨fun _ => false, fun _ => false, fun _ => false, fun _ => []⟩

/-- A generic-kind document with two paragraphs, `"A\n\nB"`. -/
def docTwoParas : DOC :=
  { doc_id := 3, doc_type := "dataset", jurisdiction := "", category := "",
    retrieval_priority := 1/2, tags := [], text := "A\n\nB".toList }

/-- The positions `i < n` of the document text covered by the union of
`[char_start, char_end)` ranges. -/
def coversRanges (ranges : List (Nat × Nat)) (n : Nat) : Prop :=
  ∀ i < n, ∃ r ∈ ranges, r.1 ≤ i ∧ i < r.2

instance (ranges : List (Nat × Nat)) (n : Nat) : Decidable (coversRanges ranges n) := by
  unfold coversRanges
  infer_instance

/-- **C3 (failing).** On the generic two-paragraph document `"A\n\nB"` (length
4), `chunk_document` produces two chunks with texts `"A"` and `"B"` but both
with `[char_start, char_end) = [0, 1)`: the offsets are relative to each
extracted section, not to the parent document, so their union does not cover
the document text even though no text was dropped (position 3 holds the `'B'`
that is inside a chunk, yet no range covers it). -/
theorem chunk_offsets_do_not_cover_document :
    ((chunk_document envTrivial {} docTwoParas 0).map
        (·.map fun c => (c.char_start, c.char_end)) = some [(0, 1), (0, 1)]) ∧
    ((chunk_document envTrivial {} docTwoParas 0).map (·.map CHUNK.text)
        = some [['A'], ['B']]) ∧
    docTwoParas.text.length = 4 ∧
    ¬ coversRanges [(0, 1), (0, 1)] docTwoParas.text.length := by
  have h1 : splitParas "A\n\nB".toList = [['A'], ['B']] := by
    simp [splitParas]
  have hsec : extract_sections envTrivial docTwoParas.text docTwoParas.doc_type
      = [⟨['A'], [], ["Paragraph 1".toList]⟩, ⟨['B'], [], ["Paragraph 2".toList]⟩] := by
    show extract_sections envTrivial "A\n\nB".toList "dataset" = _
    unfold extract_sections
    rw [if_neg (by decide), if_neg (by decide), if_neg (by decide)]
    unfold extract_generic_sections
    rw [h1]
    decide
  refine ⟨?_, ?_, by decide, by decide⟩
  · unfold chunk_document
    rw [hsec]
    decide
  · unfold chunk_document
    rw [hsec]
    decide

/-! ## Citation lists contain no duplicates (claim C10) -/

lemma chunk_section_citations_nodup (env : RegexEnv) (cfg : ChunkerConfig) (doc : DOC)
    (sec : DocSection) (ord fuel : Nat) (cs : List CHUNK)
    (h : chunk_section env cfg doc sec ord fuel = some cs) :
    ∀ c ∈ cs, c.citations.Nodup := by
  unfold chunk_section at h
  by_cases hle : sec.text.length ≤ cfg.max_chunk_size
  · rw [if_pos hle] at h
    obtain rfl := Option.some.inj h
    intro c hc
    rw [List.mem_singleton] at hc
    subst hc
    exact List.nodup_dedup _
  · rw [if_neg hle] at h
    cases hsp : split_text_with_overlap cfg sec.text fuel with
    | none => rw [hsp] at h; exact absurd h (by simp)
    | some ts =>
      rw [hsp] at h
      obtain rfl := Option.some.inj h
      intro c hc
      rw [List.mem_map] at hc
      obtain ⟨p, _, rfl⟩ := hc
      exact List.nodup_dedup _

lemma chunkSectionsLoop_citations_nodup (env : RegexEnv) (cfg : ChunkerConfig)
    (doc : DOC) (fuel : Nat) :
    ∀ (secs : List DocSection) (ord : Nat) (cs : List CHUNK),
      chunkSectionsLoop env cfg doc fuel secs ord = some cs →
      ∀ c ∈ cs, c.citations.Nodup := by
  intro secs
  induction secs with
  | nil =>
    intro ord cs h c hc
    obtain rfl := Option.some.inj h
    exact absurd hc (by simp)
  | cons s rest ih =>
    intro ord cs h c hc
    rw [chunkSectionsLoop] at h
    cases h1 : chunk_section env cfg doc s ord fuel with
    | none => simp only [h1] at h; exact absurd h (by simp)
    | some cs1 =>
      simp only [h1] at h
      cases h2 : chunkSectionsLoop env cfg doc fuel rest (ord + cs1.length) with
      | none => simp only [h2] at h; exact absurd h (by simp)
      | some cs2 =>
        simp only [h2] at h
        obtain rfl : cs1 ++ cs2 = cs := Option.some.inj h
        rcases List.mem_append.mp hc with hc1 | hc2
        · exact chunk_section_citations_nodup env cfg doc s ord fuel cs1 h1 c hc1
        · exact ih (ord + cs1.length) cs2 h2 c hc2

/-- **C10.** The citation-extraction step never returns duplicates, and every
chunk produced by `chunk_document` has a duplicate-free citation list
(`_extract_citations` returns `list(set(...))`, and `_enrich_chunk` leaves
citations untouched). -/
theorem extract_citations_nodup :
    (∀ (env : RegexEnv) (text : List Char), (extract_citations env text).Nodup) ∧
    (∀ (env : RegexEnv) (cfg : ChunkerConfig) (doc : DOC) (fuel : Nat) (cs : List CHUNK),
      chunk_document env cfg doc fuel = some cs → ∀ c ∈ cs, c.citations.Nodup) := by
  constructor
  · intro env text
    exact List.nodup_dedup _
  · intro env cfg doc fuel cs h c hc
    unfold chunk_document at h
    cases h0 : chunkSectionsLoop env cfg doc fuel
        (extract_sections env doc.text doc.doc_type) 0 with
    | none => rw [h0] at h; exact absurd h (by simp)
    | some cs0 =>
      rw [h0] at h
      obtain rfl := Option.some.inj h
      rw [List.mem_map] at hc
      obtain ⟨c0, hc0, rfl⟩ := hc
      show (enrich_chunk doc c0).citations.Nodup
      have : (enrich_chunk doc c0).citations = c0.citations := rfl
      rw [this]
      exact chunkSectionsLoop_citations_nodup env cfg doc fuel _ 0 cs0 h0 c0 hc0

/-- A one-line regulation-kind document for the C10 witness. -/
def regDocW : DOC :=
  { doc_id := 4, doc_type := "reg", jurisdiction := "", category := "",
    retrieval_priority := 1/2, tags := [], text := "X".toList }

/-- A chunker configuration whose regulation authority weight is the integer
1 (kernel-reducible rational), used only to instantiate the C10 witness. -/
def cfgW : ChunkerConfig := { authority_ranking := { federal_regulation := 1 } }

/-- The single chunk `chunk_document` produces for `regDocW` under `cfgW`. -/
def chunkW : CHUNK :=
  ⟨4, 0, 0, 2, ['\n', 'X'], 0, [], [], [], 1, []⟩

/-- Witness for C10: the concrete chunk produced from `regDocW` has a
duplicate-free citation list. -/
theorem extract_citations_nodup_witness : chunkW.citations.Nodup :=
  extract_citations_nodup.2 envTrivial cfgW regDocW 0 [chunkW] (by decide) chunkW
    (by decide)



/-! ## Hybrid index (`src/wyngai/rag/hybrid_index_lite.py`)

The external libraries (`rank_bm25.BM25Okapi`, sklearn's `TfidfVectorizer`
and `cosine_similarity`) are out of scope per the spec and are abstracted:
their opaque fitted states get type parameters `σ₁` (BM25 index), `σ₂`
(vectorizer), `σ₃` (TF-IDF matrix), and their scoring entry points are
function parameters.  Everything else (tokenization, normalization, score
combination, filtering, sorting, truncation, persistence plumbing) is
translated from the source. -/

instance : Inhabited CHUNK := ⟨⟨0, 0, 0, 0, [], 0, [], [], [], 0, []⟩⟩

/-- Python `s.split()`: split on runs of whitespace, no empty tokens. -/
def py_split (l : List Char) : List (List Char) :=
  go l []
where
  go : List Char → List Char → List (List Char)
  | [], cur => if cur = [] then [] else [cur.reverse]
  | c :: rest, cur =>
    if isSpaceChar c then
      if cur = [] then go rest [] else cur.reverse :: go rest []
    else go rest (c :: cur)

/-- `HybridIndexLite.__init__` state (weights default to 0.4 / 0.3 / 0.3;
`chunks = []`, all fitted structures `None`). -/
structure HybridIndexLite (σ₁ σ₂ σ₃ : Type) where
  bm25_weight : ℚ := 4/10
  tfidf_weight : ℚ := 3/10
  authority_weight : ℚ := 3/10
  chunks : List CHUNK := []
  bm25_index : Option σ₁ := none
  tfidf_vectorizer : Option σ₂ := none
  tfidf_matrix : Option σ₃ := none

/-- The score normalization of `_bm25_search`: if the score array is
non-empty and its maximum is positive, divide every score by the maximum. -/
def normalizeScores (l : List ℚ) : List ℚ :=
  match l with
  | [] => []
  | a :: t =>
    let m := t.foldl max a
    if 0 < m then (a :: t).map (· / m) else a :: t

/-- `HybridIndexLite._bm25_search` (`getScores` abstracts
`BM25Okapi.get_scores`; the tokenization `query.lower().split()` and the
normalization are from the source). -/
def bm25_search (getScores : σ₁ → List (List Char) → List ℚ) (b : σ₁)
    (query : List Char) : List ℚ :=
  normalizeScores (getScores b (py_split (lowerChars query)))

/-- `HybridIndexLite._get_authority_scores`. -/
def get_authority_scores (idx : HybridIndexLite σ₁ σ₂ σ₃) : List ℚ :=
  idx.chunks.map (·.authority_rank)

/-- Elementwise weighted sum of three equal-length score arrays (numpy
broadcast of `_combine_scores`). -/
def combine3 (w1 w2 w3 : ℚ) : List ℚ → List ℚ → List ℚ → List ℚ
  | a :: as, b :: bs, c :: cs => (w1 * a + w2 * b + w3 * c) :: combine3 w1 w2 w3 as bs cs
  | _, _, _ => []

/-- `HybridIndexLite._combine_scores`. -/
def combine_scores (idx : HybridIndexLite σ₁ σ₂ σ₃) (bm tf auth : List ℚ) : List ℚ :=
  combine3 idx.bm25_weight idx.tfidf_weight idx.authority_weight bm tf auth

/-- Stable insertion for descending sort: a later element is placed after
every already-present element with an equal or larger key (the behaviour of
Python's stable `list.sort(key=..., reverse=True)`). -/
def insertDesc (key : α → ℚ) (x : α) : List α → List α
  | [] => [x]
  | y :: ys => if key x ≤ key y then y :: insertDesc key x ys else x :: y :: ys

/-- Python's stable `sort(key=lambda x: x[1], reverse=True)`. -/
def sortByDesc (key : α → ℚ) (l : List α) : List α :=
  l.foldl (fun acc x => insertDesc key x acc) []

/-- `HybridIndexLite.search`.  Raises `ValueError` (modelled as
`Except.error`) when any of the three fitted structures is missing. -/
def search (getScores : σ₁ → List (List Char) → List ℚ)
    (semScores : σ₂ → σ₃ → List Char → List ℚ)
    (idx : HybridIndexLite σ₁ σ₂ σ₃) (query : List Char) (top_k : Nat)
    (min_score : ℚ) : Except String (List (CHUNK × ℚ)) :=
  match idx.bm25_index, idx.tfidf_vectorizer, idx.tfidf_matrix with
  | some b, some v, some m =>
    let bm25_scores := bm25_search getScores b query
    let tfidf_scores := semScores v m query
    let authority_scores := get_authority_scores idx
    let combined_scores := combine_scores idx bm25_scores tfidf_scores authority_scores
    let results := (combined_scores.enum.filter (fun p => decide (min_score ≤ p.2))).map
      (fun p => (idx.chunks.getD p.1 default, p.2))
    .ok ((sortByDesc (fun r => r.2) results).take top_k)
  | _, _, _ => .error "Index not built. Call build_index() first."

/-- The method-call view of `search`: the method assigns no attribute, so the
post-state equals the pre-state. -/
def searchCall (getScores : σ₁ → List (List Char) → List ℚ)
    (semScores : σ₂ → σ₃ → List Char → List ℚ)
    (idx : HybridIndexLite σ₁ σ₂ σ₃) (query : List Char) (top_k : Nat)
    (min_score : ℚ) :
    Except String (List (CHUNK × ℚ)) × HybridIndexLite σ₁ σ₂ σ₃ :=
  (search getScores semScores idx query top_k min_score, idx)

/-- `HybridIndexLite.__init__` with explicit weights. -/
def initIndex (σ₁ σ₂ σ₃ : Type) (w1 w2 w3 : ℚ) : HybridIndexLite σ₁ σ₂ σ₃ :=
  { bm25_weight := w1, tfidf_weight := w2, authority_weight := w3 }

/-- `HybridIndexLite.build_index`.  `bm25Fit` abstracts `BM25Okapi(...)`
(which raises `ZeroDivisionError` on an empty corpus: `avgdl = num_doc /
corpus_size`), `newVectorizer` the constructed `TfidfVectorizer`, and
`fitTransform` its `fit_transform` (which raises on corpora too small for
`min_df=2`/`max_df=0.8`).  Assignment order (`chunks`, then `bm25_index`,
then `tfidf_vectorizer`, then `tfidf_matrix`) is from the source, so a raise
leaves the earlier assignments in place. -/
def build_index (bm25Fit : List (List (List Char)) → Except String σ₁)
    (newVectorizer : σ₂)
    (fitTransform : σ₂ → List (List Char) → Except String σ₃)
    (idx : HybridIndexLite σ₁ σ₂ σ₃) (chunks : List CHUNK) :
    HybridIndexLite σ₁ σ₂ σ₃ × Option String :=
  let idx1 := { idx with chunks := chunks }
  let texts := chunks.map (·.text)
  let tokenized := texts.map (fun t => py_split (lowerChars t))
  match bm25Fit tokenized with
  | .error e => (idx1, some e)
  | .ok b =>
    let idx2 := { idx1 with bm25_index := some b }
    let idx3 := { idx2 with tfidf_vectorizer := some newVectorizer }
    match fitTransform newVectorizer texts with
    | .error e => (idx3, some e)
    | .ok m => ({ idx3 with tfidf_matrix := some m }, none)

/-- The persisted bundle written by `save_index`: chunks as JSON (the
pydantic `model_dump`/re-parse round trip is exact for every field involved),
the three fitted structures as pickles (exact), and the metadata record
including the configured weights. -/
structure SavedIndex (σ₁ σ₂ σ₃ : Type) where
  chunks : List CHUNK
  bm25_index : Option σ₁
  tfidf_vectorizer : Option σ₂
  tfidf_matrix : Option σ₃
  metadata_weights : ℚ × ℚ × ℚ

/-- `HybridIndexLite.save_index`. -/
def save_index (idx : HybridIndexLite σ₁ σ₂ σ₃) : SavedIndex σ₁ σ₂ σ₃ :=
  { chunks := idx.chunks
    bm25_index := idx.bm25_index
    tfidf_vectorizer := idx.tfidf_vectorizer
    tfidf_matrix := idx.tfidf_matrix
    metadata_weights := (idx.bm25_weight, idx.tfidf_weight, idx.authority_weight) }

/-- `HybridIndexLite.load_index`: restores chunks and the three pickled
structures onto the receiving instance.  The metadata file is read into a
local variable and discarded — in particular the saved weights are NOT
restored; the instance keeps its constructor weights. -/
def load_index (idx : HybridIndexLite σ₁ σ₂ σ₃) (saved : SavedIndex σ₁ σ₂ σ₃) :
    HybridIndexLite σ₁ σ₂ σ₃ :=
  { idx with chunks := saved.chunks
             bm25_index := saved.bm25_index
             tfidf_vectorizer := saved.tfidf_vectorizer
             tfidf_matrix := saved.tfidf_matrix }



/-! ## Unbuilt index raises (claim C9) -/

/-- **C9.** `search` on an index without fitted structures raises
`ValueError("Index not built...")` for every query, `top_k` and `min_score`,
and leaves the state unchanged — (a) whenever any of the three structures is
missing, (b) on a freshly constructed instance, and (c) after `build_index`
on an empty chunk list (where `BM25Okapi([])` raises `ZeroDivisionError`
before any structure is assigned, leaving only `chunks := []`). -/
theorem search_unbuilt_raises :
    (∀ (σ₁ σ₂ σ₃ : Type) (getScores : σ₁ → List (List Char) → List ℚ)
        (semScores : σ₂ → σ₃ → List Char → List ℚ)
        (idx : HybridIndexLite σ₁ σ₂ σ₃) (query : List Char) (top_k : Nat) (min_score : ℚ),
      (idx.bm25_index = none ∨ idx.tfidf_vectorizer = none ∨ idx.tfidf_matrix = none) →
      searchCall getScores semScores idx query top_k min_score
        = (.error "Index not built. Call build_index() first.", idx)) ∧
    (∀ (σ₁ σ₂ σ₃ : Type) (getScores : σ₁ → List (List Char) → List ℚ)
        (semScores : σ₂ → σ₃ → List Char → List ℚ)
        (w1 w2 w3 : ℚ) (query : List Char) (top_k : Nat) (min_score : ℚ),
      searchCall getScores semScores (initIndex σ₁ σ₂ σ₃ w1 w2 w3) query top_k min_score
        = (.error "Index not built. Call build_index() first.",
            initIndex σ₁ σ₂ σ₃ w1 w2 w3)) ∧
    (∀ (σ₁ σ₂ σ₃ : Type) (getScores : σ₁ → List (List Char) → List ℚ)
        (semScores : σ₂ → σ₃ → List Char → List ℚ)
        (bm25Fit : List (List (List Char)) → Except String σ₁) (newV : σ₂)
        (fitT : σ₂ → List (List Char) → Except String σ₃)
        (w1 w2 w3 : ℚ) (e : String) (query : List Char) (top_k : Nat) (min_score : ℚ),
      bm25Fit [] = .error e →
      searchCall getScores semScores
          (build_index bm25Fit newV fitT (initIndex σ₁ σ₂ σ₃ w1 w2 w3) []).1
          query top_k min_score
        = (.error "Index not built. Call build_index() first.",
            (build_index bm25Fit newV fitT (initIndex σ₁ σ₂ σ₃ w1 w2 w3) []).1)) := by
  refine ⟨?_, ?_, ?_⟩
  · intro σ₁ σ₂ σ₃ getScores semScores idx query top_k min_score h
    unfold searchCall search
    cases hb : idx.bm25_index <;> cases hv : idx.tfidf_vectorizer <;>
      cases hm : idx.tfidf_matrix <;> simp_all
  · intro σ₁ σ₂ σ₃ getScores semScores w1 w2 w3 query top_k min_score
    rfl
  · intro σ₁ σ₂ σ₃ getScores semScores bm25Fit newV fitT w1 w2 w3 e query top_k min_score h
    have hbuilt : (build_index bm25Fit newV fitT (initIndex σ₁ σ₂ σ₃ w1 w2 w3) []).1
        = { initIndex σ₁ σ₂ σ₃ w1 w2 w3 with chunks := [] } := by
      unfold build_index
      simp only [List.map_nil]
      rw [h]
    rw [hbuilt]
    rfl

/-- Witness for C9: a fresh two-arg-scorer index over `Unit` structure types
(case (a) with `bm25_index = none`). -/
theorem search_unbuilt_raises_witness :
    searchCall (fun (_ : Unit) (_ : List (List Char)) => ([] : List ℚ))
        (fun (_ : Unit) (_ : Unit) (_ : List Char) => ([] : List ℚ))
        (initIndex Unit Unit Unit 1 0 0) [] 1 0
      = (.error "Index not built. Call build_index() first.",
          initIndex Unit Unit Unit 1 0 0) :=
  search_unbuilt_raises.1 Unit Unit Unit _ _ _ _ _ _ (Or.inl rfl)

/-! ## Save / load round trip (claim C4) -/

/-- Amended C4: `load_index` does not restore the saved weights (it reads the
metadata and discards it), so the round trip preserves search results exactly
when the receiving fresh instance is constructed with the same weights as the
saved index (in particular for default-weight indexes); and repeated `search`
calls with identical arguments on the same index are identical. -/
theorem load_save_roundtrip_same_weights :
    ∀ (σ₁ σ₂ σ₃ : Type) (getScores : σ₁ → List (List Char) → List ℚ)
      (semScores : σ₂ → σ₃ → List Char → List ℚ)
      (idx fresh : HybridIndexLite σ₁ σ₂ σ₃),
      fresh.bm25_weight = idx.bm25_weight →
      fresh.tfidf_weight = idx.tfidf_weight →
      fresh.authority_weight = idx.authority_weight →
      ∀ (query : List Char) (top_k : Nat) (min_score : ℚ),
        search getScores semScores (load_index fresh (save_index idx))
            query top_k min_score
          = search getScores semScores idx query top_k min_score ∧
        search getScores semScores idx query top_k min_score
          = search getScores semScores idx query top_k min_score := by
  intro σ₁ σ₂ σ₃ getScores semScores idx fresh h1 h2 h3 query top_k min_score
  have hload : load_index fresh (save_index idx) = idx := by
    cases idx
    cases fresh
    simp_all [load_index, save_index]
  rw [hload]
  exact ⟨rfl, rfl⟩

/-- The single chunk of the C4 counterexample index. -/
def chunkCx : CHUNK := ⟨9, 0, 0, 1, ['x'], 0, [], [], [], 0, []⟩

/-- A built index with non-default weights `(1, 0, 0)`. -/
def idxCx : HybridIndexLite Unit Unit Unit :=
  { bm25_weight := 1, tfidf_weight := 0, authority_weight := 0,
    chunks := [chunkCx], bm25_index := some (), tfidf_vectorizer := some (),
    tfidf_matrix := some () }

/-- Concrete lexical scorer for the counterexample (raw BM25 score 1). -/
def lexCx : Unit → List (List Char) → List ℚ := fun _ _ => [1]

/-- Concrete semantic scorer for the counterexample (similarity 0). -/
def semCx : Unit → Unit → List Char → List ℚ := fun _ _ _ => [0]

/-- **C4 (failing as stated).** Saving the `(1, 0, 0)`-weighted index and
loading it into a fresh default-constructed index changes search results:
the original scores the chunk `1*1 = 1 ≥ 0.5` and returns it, the reloaded
index (weights back to `0.4/0.3/0.3`) scores it `0.4 < 0.5` and returns
nothing, because `load_index` never restores the saved weights. -/
theorem load_save_roundtrip_counterexample :
    search lexCx semCx (load_index {} (save_index idxCx)) ['q'] 10 (1/2)
      ≠ search lexCx semCx idxCx ['q'] 10 (1/2) := by
  have h1 : search lexCx semCx idxCx ['q'] 10 (1/2) = .ok [(chunkCx, 1)] := by
    unfold search bm25_search get_authority_scores combine_scores idxCx lexCx semCx
    norm_num [normalizeScores, combine3, chunkCx, sortByDesc, insertDesc,
      List.enum, List.enumFrom, List.filter]
  have h2 : search lexCx semCx (load_index {} (save_index idxCx)) ['q'] 10 (1/2)
      = .ok [] := by
    unfold load_index save_index search bm25_search get_authority_scores combine_scores
      idxCx lexCx semCx
    norm_num [normalizeScores, combine3, chunkCx, sortByDesc, insertDesc,
      List.enum, List.enumFrom, List.filter]
  rw [h1, h2]
  intro hcon
  exact absurd (Except.ok.inj hcon) (by simp)

/-- The same index as `idxCx` but with the constructor-default weights. -/
def idxCxDefault : HybridIndexLite Unit Unit Unit :=
  { chunks := [chunkCx], bm25_index := some (), tfidf_vectorizer := some (),
    tfidf_matrix := some () }

/-- Witness for the amended C4: the default-weight one-chunk index round
trips to identical search results. -/
theorem load_save_roundtrip_same_weights_witness :
    search lexCx semCx (load_index {} (save_index idxCxDefault)) ['q'] 5 0
      = search lexCx semCx idxCxDefault ['q'] 5 0 :=
  (load_save_roundtrip_same_weights Unit Unit Unit lexCx semCx idxCxDefault {}
    rfl rfl rfl ['q'] 5 0).1



/-! ## Search result specification (claim C5) -/

/-- Index-level view of the `search` pipeline: the same filter / stable sort /
truncation, but on `(position, score)` pairs so that the tie-break by original
chunk position can be stated. -/
def searchIdx (getScores : σ₁ → List (List Char) → List ℚ)
    (semScores : σ₂ → σ₃ → List Char → List ℚ)
    (idx : HybridIndexLite σ₁ σ₂ σ₃) (b : σ₁) (v : σ₂) (m : σ₃)
    (query : List Char) (top_k : Nat) (min_score : ℚ) : List (Nat × ℚ) :=
  let combined := combine_scores idx (bm25_search getScores b query)
    (semScores v m query) (get_authority_scores idx)
  (sortByDesc (fun r => r.2)
    (combined.enum.filter (fun p => decide (min_score ≤ p.2)))).take top_k

/-- Result order required of `search`: strictly higher combined score first,
and equal combined scores in original chunk-list position order. -/
def DescOrd (a b : Nat × ℚ) : Prop :=
  b.2 < a.2 ∨ (a.2 = b.2 ∧ a.1 < b.1)

lemma mem_insertDesc {α : Type} (key : α → ℚ) (x : α) :
    ∀ (l : List α) (a : α), a ∈ insertDesc key x l → a = x ∨ a ∈ l := by
  intro l
  induction l with
  | nil =>
    intro a ha
    rw [insertDesc] at ha
    rcases List.mem_singleton.mp ha with rfl
    exact Or.inl rfl
  | cons y ys ih =>
    intro a ha
    rw [insertDesc] at ha
    by_cases hk : key x ≤ key y
    · rw [if_pos hk] at ha
      rcases List.mem_cons.mp ha with rfl | ha
      · exact Or.inr (List.mem_cons_self _ _)
      · rcases ih a ha with rfl | ha
        · exact Or.inl rfl
        · exact Or.inr (List.mem_cons_of_mem _ ha)
    · rw [if_neg hk] at ha
      rcases List.mem_cons.mp ha with rfl | ha
      · exact Or.inl rfl
      · exact Or.inr ha

lemma mem_sortByDesc_aux {α : Type} (key : α → ℚ) :
    ∀ (l acc : List α) (a : α),
      a ∈ l.foldl (fun acc x => insertDesc key x acc) acc → a ∈ acc ∨ a ∈ l := by
  intro l
  induction l with
  | nil => intro acc a ha; exact Or.inl ha
  | cons x xs ih =>
    intro acc a ha
    rw [List.foldl_cons] at ha
    rcases ih (insertDesc key x acc) a ha with hacc | hxs
    · rcases mem_insertDesc key x acc a hacc with rfl | hacc
      · exact Or.inr (List.mem_cons_self _ _)
      · exact Or.inl hacc
    · exact Or.inr (List.mem_cons_of_mem _ hxs)

lemma mem_sortByDesc {α : Type} (key : α → ℚ) (l : List α) (a : α)
    (ha : a ∈ sortByDesc key l) : a ∈ l := by
  rcases mem_sortByDesc_aux key l [] a ha with h | h
  · exact absurd h (by simp)
  · exact h

lemma insertDesc_pairwise (x : Nat × ℚ) :
    ∀ (l : List (Nat × ℚ)), l.Pairwise DescOrd → (∀ a ∈ l, a.1 < x.1) →
      (insertDesc (fun r => r.2) x l).Pairwise DescOrd := by
  intro l
  induction l with
  | nil => intro _ _; exact List.pairwise_singleton _ _
  | cons y ys ih =>
    intro hl hx
    rw [insertDesc]
    by_cases hk : x.2 ≤ y.2
    · rw [if_pos hk]
      rw [List.pairwise_cons] at hl ⊢
      constructor
      · intro a ha
        rcases mem_insertDesc _ x ys a ha with rfl | ha
        · rcases lt_or_eq_of_le hk with hlt | heq
          · exact Or.inl hlt
          · exact Or.inr ⟨heq.symm, hx y (List.mem_cons_self _ _)⟩
        · exact hl.1 a ha
      · exact ih hl.2 (fun a ha => hx a (List.mem_cons_of_mem _ ha))
    · rw [if_neg hk]
      push_neg at hk
      rw [List.pairwise_cons]
      constructor
      · intro a ha
        rcases List.mem_cons.mp ha with rfl | ha
        · exact Or.inl hk
        · rw [List.pairwise_cons] at hl
          have h2 : a.2 ≤ y.2 := by
            rcases hl.1 a ha with h | h
            · exact le_of_lt h
            · exact le_of_eq h.1.symm
          exact Or.inl (lt_of_le_of_lt h2 hk)
      · exact hl

lemma sortByDesc_pairwise_aux :
    ∀ (l acc : List (Nat × ℚ)), acc.Pairwise DescOrd →
      (∀ a ∈ acc, ∀ b ∈ l, a.1 < b.1) →
      l.Pairwise (fun a b : Nat × ℚ => a.1 < b.1) →
      (l.foldl (fun acc x => insertDesc (fun r => r.2) x acc) acc).Pairwise DescOrd := by
  intro l
  induction l with
  | nil => intro acc hacc _ _; exact hacc
  | cons x xs ih =>
    intro acc hacc hinv hl
    rw [List.foldl_cons]
    rw [List.pairwise_cons] at hl
    apply ih
    · exact insertDesc_pairwise x acc hacc
        (fun a ha => hinv a ha x (List.mem_cons_self _ _))
    · intro a ha b hb
      rcases mem_insertDesc _ x acc a ha with rfl | ha
      · exact hl.1 b hb
      · exact hinv a ha b (List.mem_cons_of_mem _ hb)
    · exact hl.2

lemma sortByDesc_pairwise (l : List (Nat × ℚ))
    (hl : l.Pairwise (fun a b : Nat × ℚ => a.1 < b.1)) :
    (sortByDesc (fun r => r.2) l).Pairwise DescOrd :=
  sortByDesc_pairwise_aux l [] (List.Pairwise.nil) (by simp) hl

lemma enumFrom_fst_ge {α : Type} :
    ∀ (l : List α) (n : Nat) (p : Nat × α), p ∈ l.enumFrom n → n ≤ p.1 := by
  intro l
  induction l with
  | nil => intro n p hp; simp [List.enumFrom] at hp
  | cons a rest ih =>
    intro n p hp
    rw [List.enumFrom] at hp
    rcases List.mem_cons.mp hp with rfl | hp
    · exact le_refl n
    · exact le_of_lt (lt_of_lt_of_le (Nat.lt_succ_self n) (ih (n + 1) p hp))

lemma enumFrom_fst_pairwise {α : Type} :
    ∀ (l : List α) (n : Nat),
      (l.enumFrom n).Pairwise (fun a b : Nat × α => a.1 < b.1) := by
  intro l
  induction l with
  | nil => intro n; exact List.Pairwise.nil
  | cons a rest ih =>
    intro n
    rw [List.enumFrom, List.pairwise_cons]
    exact ⟨fun p hp => lt_of_lt_of_le (Nat.lt_succ_self n) (enumFrom_fst_ge rest (n + 1) p hp),
      ih (n + 1)⟩

lemma enum_fst_pairwise {α : Type} (l : List α) :
    l.enum.Pairwise (fun a b : Nat × α => a.1 < b.1) :=
  enumFrom_fst_pairwise l 0

lemma insertDesc_map {α β : Type} (f : α → β) (k1 : α → ℚ) (k2 : β → ℚ)
    (hf : ∀ x, k2 (f x) = k1 x) (x : α) :
    ∀ (l : List α), insertDesc k2 (f x) (l.map f) = (insertDesc k1 x l).map f := by
  intro l
  induction l with
  | nil => rfl
  | cons y ys ih =>
    rw [List.map_cons, insertDesc, insertDesc, hf, hf]
    by_cases hk : k1 x ≤ k1 y
    · rw [if_pos hk, if_pos hk, ih, List.map_cons]
    · rw [if_neg hk, if_neg hk, List.map_cons, List.map_cons]

lemma sortByDesc_map_aux {α β : Type} (f : α → β) (k1 : α → ℚ) (k2 : β → ℚ)
    (hf : ∀ x, k2 (f x) = k1 x) :
    ∀ (l acc : List α),
      (l.map f).foldl (fun acc x => insertDesc k2 x acc) (acc.map f)
        = (l.foldl (fun acc x => insertDesc k1 x acc) acc).map f := by
  intro l
  induction l with
  | nil => intro acc; rfl
  | cons x xs ih =>
    intro acc
    rw [List.map_cons, List.foldl_cons, List.foldl_cons]
    rw [insertDesc_map f k1 k2 hf x acc]
    exact ih (insertDesc k1 x acc)

lemma sortByDesc_map {α β : Type} (f : α → β) (k1 : α → ℚ) (k2 : β → ℚ)
    (hf : ∀ x, k2 (f x) = k1 x) (l : List α) :
    sortByDesc k2 (l.map f) = (sortByDesc k1 l).map f :=
  sortByDesc_map_aux f k1 k2 hf l []

lemma normalizeScores_length (l : List ℚ) :
    (normalizeScores l).length = l.length := by
  match l with
  | [] => rfl
  | a :: t =>
    rw [normalizeScores]
    by_cases hm : 0 < t.foldl max a
    · rw [if_pos hm, List.length_map]
    · rw [if_neg hm]

lemma combine3_length (w1 w2 w3 : ℚ) :
    ∀ (as bs cs : List ℚ), bs.length = as.length → cs.length = as.length →
      (combine3 w1 w2 w3 as bs cs).length = as.length := by
  intro as
  induction as with
  | nil =>
    intro bs cs hb hc
    rw [List.length_nil, List.length_eq_zero] at hb hc
    subst hb; subst hc; rfl
  | cons a as' ih =>
    intro bs cs hb hc
    cases bs with
    | nil => simp at hb
    | cons b bs' =>
      cases cs with
      | nil => simp at hc
      | cons c cs' =>
        rw [combine3, List.length_cons, List.length_cons]
        rw [List.length_cons, List.length_cons] at hb hc
        rw [ih bs' cs' (by omega) (by omega)]

lemma combine3_get? (w1 w2 w3 : ℚ) :
    ∀ (as bs cs : List ℚ) (i : Nat), i < as.length → i < bs.length → i < cs.length →
      (combine3 w1 w2 w3 as bs cs).get? i
        = some (w1 * as.getD i 0 + w2 * bs.getD i 0 + w3 * cs.getD i 0) := by
  intro as
  induction as with
  | nil => intro bs cs i h; simp at h
  | cons a as' ih =>
    intro bs cs i ha hb hc
    cases bs with
    | nil => simp at hb
    | cons b bs' =>
      cases cs with
      | nil => simp at hc
      | cons c cs' =>
        cases i with
        | zero => rfl
        | succ j =>
          rw [combine3]
          show (combine3 w1 w2 w3 as' bs' cs').get? j = _
          rw [List.length_cons] at ha hb hc
          rw [ih bs' cs' j (by omega) (by omega) (by omega)]
          rfl

lemma getD_map_authority :
    ∀ (l : List CHUNK) (i : Nat), i < l.length →
      (l.map (fun c => c.authority_rank)).getD i 0
        = (l.getD i default).authority_rank := by
  intro l
  induction l with
  | nil => intro i h; simp at h
  | cons c cs ih =>
    intro i h
    cases i with
    | zero => rfl
    | succ j =>
      rw [List.length_cons] at h
      show (cs.map (fun c => c.authority_rank)).getD j 0 = (cs.getD j default).authority_rank
      exact ih j (by omega)



/-- **C5.** For a built index (the three fitted structures present) and
score arrays of corpus length, `search` returns at most `top_k` pairs, each
pair's score is `bm25_weight * normalized-lexical + tfidf_weight * semantic +
authority_weight * authority_rank` of its chunk position and is `≥ min_score`,
and (via the `(position, score)` view `searchIdx`, of which `search` is the
chunk projection) results come in strictly descending score order with ties
in original chunk-list order. -/
lemma sortByDesc_map_proj (chunks : List CHUNK) (l : List (Nat × ℚ)) :
    sortByDesc (fun r : CHUNK × ℚ => r.2)
        (l.map (fun p => (chunks.getD p.1 default, p.2)))
      = (sortByDesc (fun r : Nat × ℚ => r.2) l).map
          (fun p => (chunks.getD p.1 default, p.2)) :=
  sortByDesc_map _ _ _ (fun _ => rfl) l

theorem search_spec (σ₁ σ₂ σ₃ : Type) (getScores : σ₁ → List (List Char) → List ℚ)
    (semScores : σ₂ → σ₃ → List Char → List ℚ)
    (idx : HybridIndexLite σ₁ σ₂ σ₃) (b : σ₁) (v : σ₂) (m : σ₃)
    (hb : idx.bm25_index = some b) (hv : idx.tfidf_vectorizer = some v)
    (hm : idx.tfidf_matrix = some m)
    (query : List Char) (top_k : Nat) (min_score : ℚ) (_hk : 0 < top_k)
    (hlex : (getScores b (py_split (lowerChars query))).length = idx.chunks.length)
    (hsem : (semScores v m query).length = idx.chunks.length) :
    search getScores semScores idx query top_k min_score
      = .ok ((searchIdx getScores semScores idx b v m query top_k min_score).map
          (fun p => (idx.chunks.getD p.1 default, p.2))) ∧
    (searchIdx getScores semScores idx b v m query top_k min_score).length ≤ top_k ∧
    (∀ p ∈ searchIdx getScores semScores idx b v m query top_k min_score,
      min_score ≤ p.2 ∧ p.1 < idx.chunks.length ∧
      p.2 = idx.bm25_weight * (bm25_search getScores b query).getD p.1 0
          + idx.tfidf_weight * (semScores v m query).getD p.1 0
          + idx.authority_weight * (idx.chunks.getD p.1 default).authority_rank) ∧
    (searchIdx getScores semScores idx b v m query top_k min_score).Pairwise DescOrd ∧
    ((searchIdx getScores semScores idx b v m query top_k min_score).map
        (fun p => (idx.chunks.getD p.1 default, p.2))).Pairwise
      (fun a b : CHUNK × ℚ => b.2 ≤ a.2) := by
  have hlexN : (bm25_search getScores b query).length = idx.chunks.length := by
    rw [bm25_search, normalizeScores_length]
    exact hlex
  have hauth : (get_authority_scores idx).length = idx.chunks.length := by
    rw [get_authority_scores, List.length_map]
  have hcomb : (combine_scores idx (bm25_search getScores b query)
      (semScores v m query) (get_authority_scores idx)).length = idx.chunks.length := by
    rw [combine_scores, combine3_length _ _ _ _ _ _ (hsem.trans hlexN.symm)
      (hauth.trans hlexN.symm)]
    exact hlexN
  have hpair : (searchIdx getScores semScores idx b v m query top_k min_score).Pairwise
      DescOrd :=
    List.Pairwise.sublist (List.take_sublist _ _)
      (sortByDesc_pairwise _
        (List.Pairwise.sublist (List.filter_sublist _) (enum_fst_pairwise _)))
  refine ⟨?_, ?_, ?_, hpair, ?_⟩
  · unfold search
    rw [hb, hv, hm]
    show Except.ok _ = _
    unfold searchIdx
    rw [sortByDesc_map_proj]
    simp only [List.map_take]
  · exact List.length_take_le _ _
  · intro p hp
    have hp1 := List.mem_of_mem_take hp
    have hp2 := mem_sortByDesc _ _ _ hp1
    have hp3 := List.mem_filter.mp hp2
    have hcond : min_score ≤ p.2 := of_decide_eq_true hp3.2
    have hget : (combine_scores idx (bm25_search getScores b query)
        (semScores v m query) (get_authority_scores idx)).get? p.1 = some p.2 := by
      rw [List.get?_eq_getElem?]
      exact List.mem_enum_iff_getElem?.mp hp3.1
    have hlt : p.1 < idx.chunks.length := by
      by_contra hcon
      push_neg at hcon
      rw [List.get?_eq_none.mpr (by omega)] at hget
      exact absurd hget (by simp)
    refine ⟨hcond, hlt, ?_⟩
    rw [combine_scores] at hget
    rw [combine3_get? _ _ _ _ _ _ p.1 (by omega) (by rw [hsem]; omega)
      (by rw [hauth]; omega)] at hget
    have := Option.some.inj hget
    rw [get_authority_scores, getD_map_authority idx.chunks p.1 hlt] at this
    exact this.symm
  · exact hpair.map _ (fun a b hab => by
      rcases hab with h | h
      · exact le_of_lt h
      · exact le_of_eq h.1.symm)

/-- Witness for C5 at the concrete one-chunk default-weight index. -/
theorem search_spec_witness :
    (searchIdx lexCx semCx idxCxDefault () () () ['q'] 5 0).length ≤ 5 :=
  (search_spec Unit Unit Unit lexCx semCx idxCxDefault () () () rfl rfl rfl
    ['q'] 5 0 (by norm_num) rfl rfl).2.1



/-! ## Data-expansion authority ranking (claim C6)

`DataExpansionPipeline._calculate_authority_rank`
(`src/wyngai/data_sources/data_expansion_pipeline.py`).  `datetime.now()` is
passed explicitly as `now` (epoch days); dates are epoch days.  Python's
`round(x, 3)` uses banker's rounding; it is modelled with Mathlib's `round`
(half away from zero) — the two differ only at exact `.0005` ties, and every
bound proved below holds for either tie rule because the band endpoints are
exact multiples of `1/1000`. -/

/-- The `authority_rankings` bands of the pipeline configuration. -/
def authority_rankings : String → Option (ℚ × ℚ) := fun s =>
  if s = "state_doi" then some (85/100, 90/100)
  else if s = "payer_policy" then some (75/100, 80/100)
  else if s = "appeal_precedent" then some (70/100, 75/100)
  else if s = "federal_regulation" then some (90/100, 95/100)
  else none

/-- The `state_bonuses` table. -/
def state_bonuses : String → ℚ := fun s =>
  if s = "CA" then 2/100
  else if s = "NY" then 2/100
  else if s = "MA" then 1/100
  else if s = "WA" then 1/100
  else 0

/-- Python `round(x, 3)`. -/
def round3 (x : ℚ) : ℚ := (round (1000 * x) : ℤ) / 1000

/-- `DataExpansionPipeline._calculate_authority_rank`. -/
def pipeline_calculate_authority_rank (doc : DOC) (source_type : String)
    (now : Int) : ℚ :=
  match authority_rankings source_type with
  | none => 75/100
  | some (mn, mx) =>
    let adj1 : ℚ :=
      if doc.jurisdiction = "federal" then 2/100
      else if doc.jurisdiction = "state" then
        state_bonuses (doc.metadata_state_code.getD "")
      else 0
    let adj2 : ℚ :=
      if doc.doc_type = "reg" then 1/100
      else if doc.doc_type = "court_opinion" then 1/100
      else 0
    let adj3 : ℚ :=
      (if 5000 < doc.text.length then 5/1000 else 0)
        + (if 20000 < doc.text.length then 5/1000 else 0)
    let adj4 : ℚ :=
      match doc.effective_date.or doc.published_date with
      | some d => if now - 365 < d then 1/100 else 0
      | none => 0
    round3 (min (mn + (adj1 + adj2 + adj3 + adj4)) mx)

lemma state_bonuses_nonneg (s : String) : 0 ≤ state_bonuses s := by
  unfold state_bonuses
  split_ifs <;> norm_num

lemma round3_bounds (v mn mx : ℚ) (k1 k2 : ℤ)
    (hmn : mn = (k1 : ℚ) / 1000) (hmx : mx = (k2 : ℚ) / 1000)
    (h1 : mn ≤ v) (h2 : v ≤ mx) : mn ≤ round3 v ∧ round3 v ≤ mx := by
  have hlow : k1 ≤ round (1000 * v) := by
    have : round ((k1 : ℚ)) ≤ round (1000 * v) := by
      rw [round_eq, round_eq]
      apply Int.floor_le_floor
      have : (k1 : ℚ) ≤ 1000 * v := by
        rw [hmn] at h1
        linarith
      linarith
    rwa [round_intCast] at this
  have hhigh : round (1000 * v) ≤ k2 := by
    have : round (1000 * v) ≤ round ((k2 : ℚ)) := by
      rw [round_eq, round_eq]
      apply Int.floor_le_floor
      have : 1000 * v ≤ (k2 : ℚ) := by
        rw [hmx] at h2
        linarith
      linarith
    rwa [round_intCast] at this
  unfold round3
  constructor
  · rw [hmn]
    have : (k1 : ℚ) ≤ (round (1000 * v) : ℤ) := by exact_mod_cast hlow
    linarith
  · rw [hmx]
    have : ((round (1000 * v) : ℤ) : ℚ) ≤ (k2 : ℚ) := by exact_mod_cast hhigh
    linarith

/-- **C6.** Wherever a source type has a configured authority band, the
pipeline's authority rank lies inside that band and inside `[0, 1]`; and any
`CHUNK` passing pydantic validation has `authority_rank ∈ [0, 1]`. -/
theorem authority_rank_bounds :
    (∀ (doc : DOC) (source_type : String) (now : Int) (mn mx : ℚ),
      authority_rankings source_type = some (mn, mx) →
      mn ≤ pipeline_calculate_authority_rank doc source_type now ∧
      pipeline_calculate_authority_rank doc source_type now ≤ mx ∧
      0 ≤ pipeline_calculate_authority_rank doc source_type now ∧
      pipeline_calculate_authority_rank doc source_type now ≤ 1) ∧
    (∀ (c c' : CHUNK), CHUNK.validated c = some c' →
      0 ≤ c'.authority_rank ∧ c'.authority_rank ≤ 1) := by
  constructor
  · intro doc source_type now mn mx h
    have hadj1 : 0 ≤ (if doc.jurisdiction = "federal" then (2/100 : ℚ)
        else if doc.jurisdiction = "state" then
          state_bonuses (doc.metadata_state_code.getD "")
        else 0) := by
      split_ifs
      · norm_num
      · exact state_bonuses_nonneg _
      · norm_num
    have hadj2 : 0 ≤ (if doc.doc_type = "reg" then (1/100 : ℚ)
        else if doc.doc_type = "court_opinion" then 1/100 else 0) := by
      split_ifs <;> norm_num
    have hadj3 : 0 ≤ ((if 5000 < doc.text.length then (5/1000 : ℚ) else 0)
        + (if 20000 < doc.text.length then 5/1000 else 0)) := by
      have h1 : 0 ≤ (if 5000 < doc.text.length then (5/1000 : ℚ) else 0) := by
        split_ifs <;> norm_num
      have h2 : 0 ≤ (if 20000 < doc.text.length then (5/1000 : ℚ) else 0) := by
        split_ifs <;> norm_num
      linarith
    have hadj4 : 0 ≤ (match doc.effective_date.or doc.published_date with
        | some d => if now - 365 < d then (1/100 : ℚ) else 0
        | none => 0) := by
      cases doc.effective_date.or doc.published_date with
      | none => norm_num
      | some d =>
        show 0 ≤ (if now - 365 < d then (1/100 : ℚ) else 0)
        split_ifs <;> norm_num
    have hmain : ∀ (k1 k2 : ℤ), mn = (k1 : ℚ) / 1000 → mx = (k2 : ℚ) / 1000 →
        mn ≤ mx → 0 ≤ mn → mx ≤ 1 →
        mn ≤ pipeline_calculate_authority_rank doc source_type now ∧
        pipeline_calculate_authority_rank doc source_type now ≤ mx ∧
        0 ≤ pipeline_calculate_authority_rank doc source_type now ∧
        pipeline_calculate_authority_rank doc source_type now ≤ 1 := by
      intro k1 k2 hk1 hk2 hmnmx hmn0 hmx1
      unfold pipeline_calculate_authority_rank
      rw [h]
      have hv1 : mn ≤ min (mn + ((if doc.jurisdiction = "federal" then (2/100 : ℚ)
          else if doc.jurisdiction = "state" then
            state_bonuses (doc.metadata_state_code.getD "")
          else 0) + (if doc.doc_type = "reg" then (1/100 : ℚ)
          else if doc.doc_type = "court_opinion" then 1/100 else 0)
          + ((if 5000 < doc.text.length then (5/1000 : ℚ) else 0)
            + (if 20000 < doc.text.length then 5/1000 else 0))
          + (match doc.effective_date.or doc.published_date with
            | some d => if now - 365 < d then (1/100 : ℚ) else 0
            | none => 0))) mx := by
        apply le_min _ hmnmx
        linarith
      have hv2 : min (mn + ((if doc.jurisdiction = "federal" then (2/100 : ℚ)
          else if doc.jurisdiction = "state" then
            state_bonuses (doc.metadata_state_code.getD "")
          else 0) + (if doc.doc_type = "reg" then (1/100 : ℚ)
          else if doc.doc_type = "court_opinion" then 1/100 else 0)
          + ((if 5000 < doc.text.length then (5/1000 : ℚ) else 0)
            + (if 20000 < doc.text.length then 5/1000 else 0))
          + (match doc.effective_date.or doc.published_date with
            | some d => if now - 365 < d then (1/100 : ℚ) else 0
            | none => 0))) mx ≤ mx := min_le_right _ _
      have hr := round3_bounds _ mn mx k1 k2 hk1 hk2 hv1 hv2
      exact ⟨hr.1, hr.2, le_trans hmn0 hr.1, le_trans hr.2 hmx1⟩
    unfold authority_rankings at h
    split_ifs at h with h1 h2 h3 h4
    · have hp := Option.some.inj h
      rw [Prod.ext_iff] at hp
      obtain ⟨hpm, hpx⟩ := hp
      subst hpm; subst hpx
      exact hmain 850 900 (by norm_num) (by norm_num) (by norm_num) (by norm_num)
        (by norm_num)
    · have hp := Option.some.inj h
      rw [Prod.ext_iff] at hp
      obtain ⟨hpm, hpx⟩ := hp
      subst hpm; subst hpx
      exact hmain 750 800 (by norm_num) (by norm_num) (by norm_num) (by norm_num)
        (by norm_num)
    · have hp := Option.some.inj h
      rw [Prod.ext_iff] at hp
      obtain ⟨hpm, hpx⟩ := hp
      subst hpm; subst hpx
      exact hmain 700 750 (by norm_num) (by norm_num) (by norm_num) (by norm_num)
        (by norm_num)
    · have hp := Option.some.inj h
      rw [Prod.ext_iff] at hp
      obtain ⟨hpm, hpx⟩ := hp
      subst hpm; subst hpx
      exact hmain 900 950 (by norm_num) (by norm_num) (by norm_num) (by norm_num)
        (by norm_num)
  · intro c c' h
    unfold CHUNK.validated at h
    split_ifs at h with hb
    obtain rfl := Option.some.inj h
    exact hb

/-- A trivial document for the C6 witness. -/
def docC6 : DOC :=
  { doc_id := 6, doc_type := "payer_policy", jurisdiction := "payer", category := "",
    retrieval_priority := 1/2, tags := [], text := [] }

/-- Witness for C6: the `state_doi` band at a concrete document. -/
theorem authority_rank_bounds_witness :
    85/100 ≤ pipeline_calculate_authority_rank docC6 "state_doi" 0 ∧
    pipeline_calculate_authority_rank docC6 "state_doi" 0 ≤ 90/100 ∧
    0 ≤ pipeline_calculate_authority_rank docC6 "state_doi" 0 ∧
    pipeline_calculate_authority_rank docC6 "state_doi" 0 ≤ 1 :=
  authority_rank_bounds.1 docC6 "state_doi" 0 (85/100) (90/100) rfl



/-! ## Enhanced RAG service (`rag/enhanced_service.py`)

The retrieval step `_hybrid_retrieve` depends on the embedding library and the
warehouse contents; its output (the candidate list, each entry carrying the
chunk-store fields read downstream) is therefore a parameter `retrieved` of
`ask`.  Reranking, grounding, confidence and the review flag are translated
from the source. -/

/-- `QueryRequest` (defaults from the pydantic model). -/
structure QueryRequest where
  question : String
  context : Option String := none
  max_sources : Nat := 5
  authority_threshold : ℚ := 1/2

/-- `Citation`. -/
structure Citation where
  source_id : String
  title : String
  url : String
  authority_rank : ℚ
  excerpt : String
  section_path : List String := []
deriving DecidableEq

/-- `GroundedResponse`. -/
structure GroundedResponse where
  answer : String
  confidence : ℚ
  citations : List Citation
  authority_sources : List String
  legal_basis : List String
  guidance_summary : String
  requires_professional_review : Bool := false
deriving DecidableEq

/-- A retrieved chunk-store entry (the fields `_rerank_by_authority` and
`_generate_grounded_response` read). -/
structure RChunk where
  chunk_id : String
  doc_id : String
  text : String
  section_path : List String
  authority_rank : ℚ
  retrieval_score : ℚ
deriving DecidableEq

/-- A document-store entry (the fields read when building citations). -/
structure DocEntry where
  title : String
  url : String
  category : String
  citation : String
deriving DecidableEq

/-- Python `needle in haystack` on `String`. -/
def strIn (needle haystack : String) : Bool :=
  strContains needle.toList haystack.toList

/-- Python `str.lower()` on `String`. -/
def pyLower (s : String) : String :=
  (lowerChars s.toList).asString

/-- `doc.get('category', '').lower()` for a chunk's parent document. -/
def categoryOf (store : String → Option DocEntry) (c : RChunk) : String :=
  pyLower (((store c.doc_id).map (fun d => d.category)).getD "")

/-- `any(term in source_category for term in ['federal', 'cfr', 'cms'])`. -/
def isFederalCat (cat : String) : Bool :=
  strIn "federal" cat || strIn "cfr" cat || strIn "cms" cat

/-- `EnhancedRAGService._rerank_by_authority`: compute
`final_score = 0.4*authority + 0.6*retrieval`, drop candidates whose
`authority_rank` is below the threshold, stable-sort descending by
`final_score`. -/
def rerank_by_authority (chunks : List RChunk) (threshold : ℚ) : List RChunk :=
  sortByDesc (fun c => 4/10 * c.authority_rank + 6/10 * c.retrieval_score)
    (chunks.filter (fun c => decide (threshold ≤ c.authority_rank)))

/-- `EnhancedRAGService._summarize_guidance`. -/
def summarize_guidance (guidance_texts : List String) : String :=
  if guidance_texts.isEmpty then "No specific guidance available."
  else
    let combined_text := String.intercalate " " guidance_texts
    let sentences := splitOnChar '.' combined_text.toList
    let relevant_sentences := ((sentences.map strip).filter
      (fun s => decide (20 < s.length))).take 3
    String.intercalate ". " (relevant_sentences.map (fun s => s.asString)) ++ "."

/-- `EnhancedRAGService._construct_authoritative_answer` (the
`clinical_guidance` bucket is collected by the source but never added to the
answer; the `elif` chain makes the buckets exclusive). -/
def construct_authoritative_answer (store : String → Option DocEntry)
    (_question : String) (chunks : List RChunk) (context : Option String) : String :=
  let federal_guidance := (chunks.filter
    (fun c => isFederalCat (categoryOf store c))).map (fun c => c.text)
  let state_guidance := (chunks.filter (fun c =>
    !isFederalCat (categoryOf store c) && strIn "state" (categoryOf store c))).map
    (fun c => c.text)
  let procedural_guidance := (chunks.filter (fun c =>
    !isFederalCat (categoryOf store c) && !strIn "state" (categoryOf store c)
      && !(strIn "medical" (categoryOf store c) || strIn "clinical" (categoryOf store c)))).map
    (fun c => c.text)
  let parts0 := ["Based on available healthcare regulations and policies, here is guidance for your situation:"]
  let parts1 := if federal_guidance.isEmpty then parts0
    else parts0 ++ ["\n**Federal Regulations and CMS Guidance:**\n"
      ++ summarize_guidance federal_guidance]
  let parts2 := if state_guidance.isEmpty then parts1
    else parts1 ++ ["\n**State-Specific Requirements:**\n"
      ++ summarize_guidance state_guidance]
  let parts3 := if procedural_guidance.isEmpty then parts2
    else parts2 ++ ["\n**Procedural Steps:**\n"
      ++ summarize_guidance procedural_guidance]
  let parts4 := match context with
    | some ctx => if ctx.isEmpty then parts3
        else parts3 ++ ["\n**Additional Context:** " ++ ctx]
    | none => parts3
  let parts5 := parts4 ++ ["\n**Important:** This guidance is based on general regulations and policies. For your specific situation, consider consulting with a healthcare advocate, insurance specialist, or attorney specializing in healthcare law."]
  String.intercalate "\n" parts5

/-- The fixed refusal response of `_generate_grounded_response` for an empty
candidate list. -/
def refusalResponse : GroundedResponse :=
  { answer := "I cannot provide guidance without access to authoritative healthcare regulations and policies. Please consult with a healthcare professional or your insurance provider directly."
    confidence := 0
    citations := []
    authority_sources := []
    legal_basis := []
    guidance_summary := "No authoritative sources available for this query."
    requires_professional_review := true }

/-- The high-stakes legal keywords of `_generate_grounded_response`. -/
def legalKeywords : List String := ["appeal", "deny", "lawsuit", "legal"]

/-- `EnhancedRAGService._generate_grounded_response`. -/
def generate_grounded_response (store : String → Option DocEntry)
    (question : String) (relevant_chunks : List RChunk)
    (context : Option String) : GroundedResponse :=
  if relevant_chunks.isEmpty then refusalResponse
  else
    let citations := relevant_chunks.map (fun ch =>
      ({ source_id := ch.doc_id
         title := ((store ch.doc_id).map (fun d => d.title)).getD "Unknown Source"
         url := ((store ch.doc_id).map (fun d => d.url)).getD ""
         authority_rank := ch.authority_rank
         excerpt := (ch.text.toList.take 200).asString ++ "..."
         section_path := ch.section_path } : Citation))
    let authority_sources := (relevant_chunks.filter
      (fun ch => isFederalCat (categoryOf store ch))).map
      (fun ch => ((store ch.doc_id).map (fun d => d.title)).getD "")
    let legal_basis := (relevant_chunks.filter
      (fun ch => isFederalCat (categoryOf store ch))).map
      (fun ch => ((store ch.doc_id).map (fun d => d.citation)).getD "" ++ ": "
        ++ (ch.text.toList.take 100).asString ++ "...")
    let answer := construct_authoritative_answer store question relevant_chunks context
    let avg_authority : ℚ := if citations.isEmpty then 0
      else (citations.map (fun c => c.authority_rank)).sum / (citations.length : ℚ)
    let confidence := min (95/100) (avg_authority + 1/10)
    let requires_review := decide (avg_authority < 7/10)
      || decide (citations.length < 2)
      || legalKeywords.any (fun term => strIn term (pyLower question))
    let guidance_summary := "Based on " ++ toString citations.length
      ++ " authoritative sources including "
      ++ String.intercalate ", " (authority_sources.take 3)
    { answer := answer
      confidence := confidence
      citations := citations
      authority_sources := authority_sources
      legal_basis := legal_basis
      guidance_summary := guidance_summary
      requires_professional_review := requires_review }

/-- `EnhancedRAGService.ask` restricted to its pure response path: retrieve
(abstracted as `retrieved`), rerank by authority against the caller's
threshold, keep the first `max_sources`, ground. -/
def ask (store : String → Option DocEntry) (retrieved : List RChunk)
    (req : QueryRequest) : GroundedResponse :=
  generate_grounded_response store req.question
    ((rerank_by_authority retrieved req.authority_threshold).take req.max_sources)
    req.context



/-! ## Grounding invariant (claim C1) -/

/-- **C1.** If reranking leaves no candidate at or above the caller's
authority threshold, `ask` returns the fixed refusal response (confidence 0,
empty citations, `requires_professional_review = true`); and `ask` never
returns `requires_professional_review = false` together with zero
citations. -/
theorem ask_grounding_invariant :
    (∀ (store : String → Option DocEntry) (retrieved : List RChunk)
        (req : QueryRequest),
      rerank_by_authority retrieved req.authority_threshold = [] →
      ask store retrieved req = refusalResponse) ∧
    (∀ (store : String → Option DocEntry) (retrieved : List RChunk)
        (req : QueryRequest),
      (ask store retrieved req).requires_professional_review = false →
      (ask store retrieved req).citations ≠ []) := by
  constructor
  · intro store retrieved req h
    unfold ask
    rw [h, List.take_nil]
    rfl
  · intro store retrieved req h
    unfold ask generate_grounded_response at h ⊢
    by_cases hrel : ((rerank_by_authority retrieved req.authority_threshold).take
        req.max_sources).isEmpty
    · rw [if_pos hrel] at h
      exact absurd h (by simp [refusalResponse])
    · rw [if_neg hrel] at h ⊢
      intro hnil
      simp only at hnil
      rw [List.map_eq_nil_iff] at hnil
      rw [hnil] at hrel
      exact hrel rfl

/-- Witness for C1: an empty retrieval list reranks to the empty list, and
`ask` refuses. -/
theorem ask_grounding_invariant_witness :
    ask (fun _ => none) [] { question := "q" } = refusalResponse :=
  ask_grounding_invariant.1 (fun _ => none) [] { question := "q" } rfl

/-! ## Confidence and review flag (claim C7) -/

/-- **C7.** For a non-empty candidate list, confidence is
`min(0.95, avg_authority + 0.1)` over the emitted citations, and
`requires_professional_review` holds exactly when the average authority is
below 0.7, fewer than two citations are present, or the lowercased question
contains one of `appeal`, `deny`, `lawsuit`, `legal`. -/
theorem grounded_response_confidence_review
    (store : String → Option DocEntry) (question : String)
    (chunks : List RChunk) (context : Option String)
    (hne : chunks ≠ []) :
    (generate_grounded_response store question chunks context).confidence
      = min (95/100)
        ((((generate_grounded_response store question chunks context).citations.map
            (fun c => c.authority_rank)).sum
          / (((generate_grounded_response store question chunks context).citations.length
            : ℚ))) + 1/10) ∧
    ((generate_grounded_response store question chunks context).requires_professional_review
        = true ↔
      ((((generate_grounded_response store question chunks context).citations.map
          (fun c => c.authority_rank)).sum
        / (((generate_grounded_response store question chunks context).citations.length
          : ℚ))) < 7/10 ∨
        (generate_grounded_response store question chunks context).citations.length < 2 ∨
        legalKeywords.any (fun term => strIn term (pyLower question)) = true)) := by
  have hempty : chunks.isEmpty = false := by
    cases chunks with
    | nil => exact absurd rfl hne
    | cons a t => rfl
  have hmapempty : (chunks.map (fun ch =>
      ({ source_id := ch.doc_id
         title := ((store ch.doc_id).map (fun d => d.title)).getD "Unknown Source"
         url := ((store ch.doc_id).map (fun d => d.url)).getD ""
         authority_rank := ch.authority_rank
         excerpt := (ch.text.toList.take 200).asString ++ "..."
         section_path := ch.section_path } : Citation))).isEmpty = false := by
    cases chunks with
    | nil => exact absurd rfl hne
    | cons a t => rfl
  unfold generate_grounded_response
  rw [if_neg (by rw [hempty]; exact Bool.false_ne_true)]
  simp only [hmapempty, Bool.false_eq_true, if_false]
  constructor
  · trivial
  · simp only [Bool.or_eq_true, decide_eq_true_eq]
    rw [or_assoc]



/-- Concrete empty document store for the C7 witness. -/
def store0 : String → Option DocEntry := fun _ => none

/-- Concrete retrieved chunk for the C7 witness. -/
def rc0 : RChunk :=
  { chunk_id := "c1", doc_id := "d1", text := "t", section_path := [],
    authority_rank := 1, retrieval_score := 0 }

/-- Witness for C7: the confidence formula at a concrete one-chunk call. -/
theorem grounded_response_confidence_review_witness :
    (generate_grounded_response store0 "hello" [rc0] none).confidence
      = min (95/100)
        ((((generate_grounded_response store0 "hello" [rc0] none).citations.map
            (fun c => c.authority_rank)).sum
          / (((generate_grounded_response store0 "hello" [rc0] none).citations.length
            : ℚ))) + 1/10) :=
  (grounded_response_confidence_review store0 "hello" [rc0] none (by simp)).1


end Wyngai
